import Mathlib

/-!
Verification of the interactive paginated search subsystem of
`buttercup/cogs/search.py`: the bounded `SearchCache`, the two-tier
pagination arithmetic, the reaction-driven navigation handler, and the
occurrence-highlighting functions `format_query_occurrence` and
`create_result_description`.

Python data is modelled shallowly:
* `datetime` values become `Nat` (only their ordering matters),
* Python `dict` objects become insertion-ordered association lists,
* object identity (references to mutable dicts) is modelled with an
  explicit heap: an address `Addr` indexing a list of items, so that
  aliasing through values returned by `SearchCache.get` is observable,
* strings become `List Char`; `str.casefold` is modelled per character
  (exact for the ASCII range, where it agrees with lowercasing).
-/

/-- Addresses of mutable Python dict objects (`SearchCacheItem` dicts). -/
abbrev Addr := Nat

/-- Model of the JSON payload returned by the Blossom transcription
endpoint: the fields read by the cog are `count` and `results`.
Each result is reduced to its text. -/
structure ResponseData where
  count : Nat
  results : List String
deriving DecidableEq

/-- Model of the `SearchCacheItem` TypedDict (search.py lines 168-184).
User ids and times are numbers; `response_data` is `None` or a payload. -/
structure SearchCacheItem where
  query : String
  user : Option Nat
  after_time : Option Nat
  before_time : Option Nat
  time_str : String
  cur_page : Int
  discord_user_id : Nat
  response_data : Option ResponseData
  request_page : Int
deriving DecidableEq

/-- Model of the `SearchCacheEntry` TypedDict (search.py lines 187-189):
the wrapper dict `{"last_modified": time, "element": entry}` built by
`SearchCache.set`.  The `element` field holds the reference to the
caller's item dict, not a copy. -/
structure CacheEntryData where
  last_modified : Nat
  element : Addr
deriving DecidableEq

/-- Model of the `SearchCache` class state (search.py lines 192-196):
a fixed capacity and the `self.cache` dict, an insertion-ordered
association list keyed by message id. -/
structure SearchCache where
  capacity : Nat
  cache : List (String × CacheEntryData)
deriving DecidableEq

/-- `SearchCache(capacity)` constructor: empty dict. -/
def SearchCache.empty (capacity : Nat) : SearchCache :=
  { capacity := capacity, cache := [] }

/-- `len(self.cache)`. -/
def SearchCache.size (c : SearchCache) : Nat := c.cache.length

/-- Python dict assignment `d[k] = v`: overwrite in place (keeping the
key's insertion position) when the key is present, else append. -/
def dictSet (l : List (String × CacheEntryData)) (k : String) (v : CacheEntryData) :
    List (String × CacheEntryData) :=
  if l.any (fun e => e.1 == k) then
    l.map (fun e => if e.1 == k then (k, v) else e)
  else
    l ++ [(k, v)]

/-- `sorted(self.cache.items(), key=lambda x: x[1]["last_modified"])[0]`:
Python's sort is stable, so the first element of the sorted list is the
leftmost entry (in dict insertion order) with minimal `last_modified`. -/
def oldestEntry : List (String × CacheEntryData) → Option (String × CacheEntryData)
  | [] => none
  | e :: rest =>
    match oldestEntry rest with
    | none => some e
    | some b => if b.2.last_modified < e.2.last_modified then some b else some e

/-- `SearchCache._clean` (search.py lines 198-203): if the capacity is
exceeded, pop the entry with the smallest `last_modified`. -/
def SearchCache.clean (c : SearchCache) : SearchCache :=
  if c.capacity < c.cache.length then
    match oldestEntry c.cache with
    | some e => { c with cache := c.cache.eraseP (fun x => x.1 == e.1) }
    | none => c
  else c

/-- The dict write performed by `SearchCache.set` before `_clean` runs:
`self.cache[msg_id] = {"last_modified": time, "element": entry}`. -/
def SearchCache.rawInsert (c : SearchCache) (msg_id : String) (a : Addr) (time : Nat) :
    SearchCache :=
  { c with cache := dictSet c.cache msg_id { last_modified := time, element := a } }

/-- `SearchCache.set` (search.py lines 205-223) with an explicit `time`
argument: store the wrapper dict, then `_clean`. -/
def SearchCache.set (c : SearchCache) (msg_id : String) (a : Addr) (time : Nat) :
    SearchCache :=
  (c.rawInsert msg_id a time).clean

/-- In the source, `set`'s `time` parameter defaults to
`datetime.now(tz=pytz.utc)`.  Python evaluates a default-argument
expression once, when the function is defined, so every call that omits
`time` receives the same fixed timestamp; `t0` stands for that single
module-load value. -/
def SearchCache.setDefault (t0 : Nat) (c : SearchCache) (msg_id : String) (a : Addr) :
    SearchCache :=
  c.set msg_id a t0

/-- `SearchCache.get` (search.py lines 225-235): look the key up and
return `item["element"]` — the stored reference itself, no copy. -/
def SearchCache.get (c : SearchCache) (msg_id : String) : Option Addr :=
  match c.cache.find? (fun e => e.1 == msg_id) with
  | some e => some e.2.element
  | none => none

/-- The full stored wrapper for a key (used to observe `last_modified`). -/
def SearchCache.lookupEntry (c : SearchCache) (msg_id : String) : Option CacheEntryData :=
  (c.cache.find? (fun e => e.1 == msg_id)).map (fun e => e.2)

/-- The heap of `SearchCacheItem` dict objects; an `Addr` is an index. -/
abbrev ItemHeap := List SearchCacheItem

/-- Mutation through a reference: `h[a]` is updated by `f` in place
(e.g. `item["cur_page"] = 5` on a dict obtained from `get`). -/
def ItemHeap.mutate (h : ItemHeap) (a : Addr) (f : SearchCacheItem → SearchCacheItem) :
    ItemHeap :=
  match h[a]? with
  | some x => h.set a (f x)
  | none => h

/-- Dereference the item a cached `get` hands back for `msg_id`: what a
caller reading the returned dict observes. -/
def readElement (c : SearchCache) (h : ItemHeap) (msg_id : String) :
    Option SearchCacheItem :=
  match c.get msg_id with
  | some a => h[a]?
  | none => none

/-- A client-visible cache operation, for reasoning about sequences of
`set` and `get` calls. -/
inductive CacheOp where
  | set (k : String) (a : Addr) (t : Nat)
  | get (k : String)

/-- Whether an operation is a `set`. -/
def CacheOp.isSet : CacheOp → Bool
  | .set _ _ _ => true
  | .get _ => false

/-- Effect of one operation on the cache state.  `get` (search.py lines
225-235) only reads `self.cache` and returns; it performs no write, so
its state effect is the identity. -/
def stepOp (c : SearchCache) : CacheOp → SearchCache
  | .set k a t => c.set k a t
  | .get _ => c

/-- Run a sequence of cache operations. -/
def runOps (c : SearchCache) (ops : List CacheOp) : SearchCache :=
  ops.foldl stepOp c

example : (((SearchCache.empty 1).set "abc" 0 3).set "def" 1 4).get "abc" = none := by
  decide

example : (((SearchCache.empty 1).set "abc" 0 3).set "def" 1 4).get "def" = some 1 := by
  decide

/-- `self.discord_page_size = 5` (search.py line 245). -/
def Search.discord_page_size : Nat := 5

/-- `self.request_page_size = self.discord_page_size * 5` (line 247). -/
def Search.request_page_size : Nat := Search.discord_page_size * 5

/-- `request_page = (discord_page * self.discord_page_size) // self.request_page_size`
(search.py line 271); Python `//` is floor division. -/
def Search.requestPageOf (discord_page : Int) : Int :=
  Int.fdiv (discord_page * Search.discord_page_size) Search.request_page_size

/-- `result_offset = discord_offset - request_offset` (search.py lines
321-325), with `request_offset = request_page * request_page_size` and
`discord_offset = discord_page * discord_page_size`. -/
def Search.resultOffsetOf (discord_page : Int) : Int :=
  discord_page * Search.discord_page_size -
    Search.requestPageOf discord_page * Search.request_page_size

/-- `last_page = math.ceil(count / self.discord_page_size) - 1`
(search.py line 454); for a natural `count`, `math.ceil(count / 5)`
is `(count + 5 - 1) / 5` in integer arithmetic. -/
def Search.lastPageOf (count : Nat) : Int :=
  (((count + Search.discord_page_size - 1) / Search.discord_page_size : Nat) : Int) - 1

/-- Clamp an index of a Python slice `s[i:]` / `s[:i]` to `[0, len]`:
negative indices count from the end. -/
def pySliceIdx (len : Nat) (i : Int) : Nat :=
  (max 0 (if i < 0 then (len : Int) + i else min i (len : Int))).toNat

/-- Python slice `s[i:]`. -/
def pyDropInt (s : List Char) (i : Int) : List Char :=
  s.drop (pySliceIdx s.length i)

/-- Python slice `s[:i]`. -/
def pyTakeInt (s : List Char) (i : Int) : List Char :=
  s.take (pySliceIdx s.length i)

/-- Python slice `l[i:j]` on a list of results. -/
def pySlice (l : List String) (i j : Int) : List String :=
  (l.drop (pySliceIdx l.length i)).take (pySliceIdx l.length j - pySliceIdx l.length i)

/-- Combined orchestrator state: the cog's cache plus the heap of item
dict objects. -/
structure SearchState where
  cache : SearchCache
  heap : ItemHeap
deriving DecidableEq

/-- Outcome of one run of `Search._search_from_cache`, recording its
observable effects: whether the Blossom provider was queried
(`fetched`), whether the Discord message was edited (`edited`), the
response used for rendering, the resulting state and the slice of
results rendered on the page. -/
structure StepResult where
  fetched : Bool
  edited : Bool
  response_data : Option ResponseData
  state : SearchState
  page_results : List String
deriving DecidableEq

/-- `Search._search_from_cache` (search.py lines 249-366), with the
Blossom API abstracted as `provider` (mapping the 1-indexed `page`
request parameter to a payload) and `t0` the fixed default timestamp of
`SearchCache.set` (the cog always omits the `time` argument). -/
def searchFromCache (provider : Int → ResponseData) (t0 : Nat) (st : SearchState)
    (msgId : String) (cache_item : SearchCacheItem) (page_mod : Int) : StepResult :=
  let discord_page := cache_item.cur_page + page_mod
  let request_page := Search.requestPageOf discord_page
  let fetchAndData : Bool × ResponseData :=
    match cache_item.response_data with
    | none => (true, provider (request_page + 1))
    | some rd =>
      if request_page ≠ cache_item.request_page then (true, provider (request_page + 1))
      else (false, rd)
  let fetched := fetchAndData.1
  let response_data := fetchAndData.2
  if response_data.count = 0 then
    { fetched := fetched, edited := true, response_data := some response_data,
      state := st, page_results := [] }
  else
    let st1 :=
      if Search.discord_page_size < response_data.count then
        let newItem : SearchCacheItem :=
          { query := cache_item.query
            user := cache_item.user
            after_time := cache_item.after_time
            before_time := cache_item.before_time
            time_str := cache_item.time_str
            cur_page := discord_page
            discord_user_id := cache_item.discord_user_id
            response_data := some response_data
            request_page := request_page }
        { cache := SearchCache.setDefault t0 st.cache msgId st.heap.length
          heap := st.heap ++ [newItem] }
      else st
    let result_offset := Search.resultOffsetOf discord_page
    { fetched := fetched, edited := true, response_data := some response_data,
      state := st1,
      page_results :=
        pySlice response_data.results result_offset
          (result_offset + Search.discord_page_size) }

/-- The four control emojis (search.py lines 35-38) or any other
reaction. -/
inductive ReactionEmoji where
  | firstPage
  | previousPage
  | nextPage
  | lastPage
  | other (s : String)
deriving DecidableEq

/-- Result of a handler invocation that returns without doing anything:
no provider call, no message edit, state unchanged. -/
def noopResult (st : SearchState) : StepResult :=
  { fetched := false, edited := false, response_data := none,
    state := st, page_results := [] }

/-- `Search.on_reaction_add` (search.py lines 437-472): look the message
up in the cache, ignore events from other users, compute the page delta
for the control emoji and delegate to `_search_from_cache`; in every
other case return without any effect. -/
def onReactionAdd (provider : Int → ResponseData) (t0 : Nat) (st : SearchState)
    (msgId : String) (emoji : ReactionEmoji) (userId : Nat) : StepResult :=
  match SearchCache.get st.cache msgId with
  | none => noopResult st
  | some addr =>
    match st.heap[addr]? with
    | none => noopResult st
    | some cache_item =>
      if cache_item.discord_user_id ≠ userId then noopResult st
      else
        let discord_page := cache_item.cur_page
        let last_page : Int :=
          match cache_item.response_data with
          | some rd => Search.lastPageOf rd.count
          | none => 0
        if emoji = ReactionEmoji.firstPage ∧ 0 < discord_page then
          searchFromCache provider t0 st msgId cache_item (-cache_item.cur_page)
        else if emoji = ReactionEmoji.previousPage ∧ 0 < discord_page then
          searchFromCache provider t0 st msgId cache_item (-1)
        else if emoji = ReactionEmoji.nextPage ∧ discord_page < last_page then
          searchFromCache provider t0 st msgId cache_item 1
        else if emoji = ReactionEmoji.lastPage ∧ discord_page < last_page then
          searchFromCache provider t0 st msgId cache_item (last_page - discord_page)
        else noopResult st

/-- Per-character model of `str.casefold`: lowercase the ASCII letters.
(Python's casefold agrees with this on the ASCII range; the model
restricts texts to characters whose casefolding is a single character.) -/
def casefoldChar (c : Char) : Char :=
  match c with
  | 'A' => 'a'
  | 'B' => 'b'
  | 'C' => 'c'
  | 'D' => 'd'
  | 'E' => 'e'
  | 'F' => 'f'
  | 'G' => 'g'
  | 'H' => 'h'
  | 'I' => 'i'
  | 'J' => 'j'
  | 'K' => 'k'
  | 'L' => 'l'
  | 'M' => 'm'
  | 'N' => 'n'
  | 'O' => 'o'
  | 'P' => 'p'
  | 'Q' => 'q'
  | 'R' => 'r'
  | 'S' => 's'
  | 'T' => 't'
  | 'U' => 'u'
  | 'V' => 'v'
  | 'W' => 'w'
  | 'X' => 'x'
  | 'Y' => 'y'
  | 'Z' => 'z'
  | other => other

/-- `str.casefold` on a whole string. -/
def casefold (s : List Char) : List Char := s.map casefoldChar

/-- Worker for `splitLines`: `cur` accumulates the current line in
reverse; a final newline produces no trailing empty line. -/
def splitLinesAux (cur : List Char) : List Char → List (List Char)
  | [] => [cur.reverse]
  | c :: rest =>
    if c = '\n' then
      cur.reverse :: (match rest with | [] => [] | _ :: _ => splitLinesAux [] rest)
    else
      splitLinesAux (c :: cur) rest

/-- `str.splitlines` (restricted to `'\n'` as the line separator): split
at newlines, without a trailing empty line for a trailing newline, and
`[]` for the empty string. -/
def splitLines (s : List Char) : List (List Char) :=
  match s with
  | [] => []
  | _ :: _ => splitLinesAux [] s

/-- Worker for `occPositions`: scan one character at a time; `skip`
counts characters still covered by the previous hit (a hit at `pos`
restarts the search at `pos + len(q)`, matching
`line.casefold().find(query.casefold(), start)` in the source). -/
def occPositionsAux (q : List Char) : List Char → Nat → List Nat
  | [], _ => []
  | _ :: rest, skip + 1 => (occPositionsAux q rest skip).map (fun m => m + 1)
  | c :: rest, 0 =>
    if q ≠ [] ∧ (c :: rest).take q.length = q then
      0 :: (occPositionsAux q rest (q.length - 1)).map (fun m => m + 1)
    else
      (occPositionsAux q rest 0).map (fun m => m + 1)

/-- The positions at which `str.find(q, start)`, restarted at
`pos + len(q)` after every hit, finds `q` in `s`: the non-overlapping
occurrences of `q`, scanned greedily left to right. -/
def occPositions (q s : List Char) : List Nat := occPositionsAux q s 0

/-- `s.count(q)`: the number of non-overlapping occurrences of `q`. -/
def countOcc (s q : List Char) : Nat := (occPositions q s).length

/-- `max_occurrences = 4` (search.py line 127). -/
def max_occurrences : Nat := 4

/-- The scanning loop of `create_result_description` (search.py lines
130-142): for each line (0-indexed `i`, displayed as `i + 1`), walk the
occurrences of the casefolded query in the casefolded line while fewer
than `max_occurrences` results have been emitted, and stop at the cap.
Returns the emitted `(line, line_num, pos)` triples. -/
def collectOccs (qcf : List Char) :
    List (List Char) → Nat → Nat → List (List Char × Nat × Nat)
  | [], _, _ => []
  | line :: rest, i, cur =>
    let ps := (occPositions qcf (casefold line)).take (max_occurrences - cur)
    let items := ps.map (fun p => (line, i + 1, p))
    if max_occurrences ≤ cur + ps.length then items
    else items ++ collectOccs qcf rest (i + 1) (cur + ps.length)

/-- `"L" + str(line_num) + ": "` (search.py line 70). -/
def labelOf (line_num : Nat) : List Char :=
  ("L" ++ toString line_num ++ ": ").data

/-- The `"..."` ellipsis used when truncating context. -/
def dotsChars : List Char := ['.', '.', '.']

/-- `math.ceil(r / 2)` for an integer `r` (equal to `(r + 1) // 2`). -/
def ceilHalf (r : Int) : Int := Int.fdiv (r + 1) 2

/-- `math.floor(r / 2)` for an integer `r` (Python `r // 2`). -/
def floorHalf (r : Int) : Int := Int.fdiv r 2

/-- The context budgets of `format_query_occurrence` (search.py lines
78-85): `left_chars = ceil(remaining / 2)`, `right_chars =
floor(remaining / 2)`, then donate unused budget from the short side to
the other side. -/
def fqoBudgets (lenL lenR : Nat) (rem : Int) : Int × Int :=
  if (lenL : Int) < ceilHalf rem then
    (ceilHalf rem, floorHalf rem + (ceilHalf rem - lenL))
  else if (lenR : Int) < floorHalf rem then
    (ceilHalf rem + (floorHalf rem - lenR), floorHalf rem)
  else
    (ceilHalf rem, floorHalf rem)

/-- Left truncation (search.py lines 88-89):
`"..." + left_context[-left_chars + 3:]` when the context exceeds its
budget. -/
def truncLeft (left : List Char) (left_chars : Int) : List Char :=
  if left_chars < (left.length : Int) then dotsChars ++ pyDropInt left (3 - left_chars)
  else left

/-- Right truncation (search.py lines 91-92):
`right_context[: right_chars - 3] + "..."` when the context exceeds its
budget. -/
def truncRight (right : List Char) (right_chars : Int) : List Char :=
  if right_chars < (right.length : Int) then pyTakeInt right (right_chars - 3) ++ dotsChars
  else right

/-- The context line and the underline line built by
`format_query_occurrence` (search.py lines 65-103), without their
trailing newlines.  `max_characters = 56` is the width budget. -/
def format_parts (line : List Char) (line_num : Nat) (pos : Nat) (query : List Char) :
    List Char × List Char :=
  let line_num_str := labelOf line_num
  let remaining_chars : Int := 56 - query.length - line_num_str.length
  let left_context := line.take pos
  let right_context := line.drop (pos + query.length)
  let budgets := fqoBudgets left_context.length right_context.length remaining_chars
  let leftTrunc := truncLeft left_context budgets.1
  let rightTrunc := truncRight right_context budgets.2
  let offset := line_num_str.length + leftTrunc.length
  let occurrence := (line.drop pos).take query.length
  (line_num_str ++ leftTrunc ++ occurrence ++ rightTrunc,
   List.replicate offset ' ' ++ List.replicate query.length '-')

/-- `format_query_occurrence`: the context line and the underline line,
each terminated by `'\n'`. -/
def format_query_occurrence (line : List Char) (line_num : Nat) (pos : Nat)
    (query : List Char) : List Char :=
  (format_parts line line_num pos query).1 ++
    '\n' :: ((format_parts line line_num pos query).2 ++ ['\n'])

/-- The occurrence-related content of the description built by
`create_result_description` (search.py lines 106-152).  The surrounding
header (post type, source, url, timestamp) and the code-block fences are
fixed locale strings around this content and are external to the model;
`occurrence_blocks` lists the rendered blocks in order and
`more_occurrences` is the count reported by the trailer, when present. -/
structure ResultDescription where
  occurrence_blocks : List (List Char)
  total_occurrences : Nat
  more_occurrences : Option Nat
deriving DecidableEq

/-- `create_result_description` (search.py lines 106-152):
`total_occurrences = text.casefold().count(query.casefold())`, the
scanning loop over `text.splitlines()` capped at `max_occurrences`, and
the `more_occurrences` trailer when fewer occurrences were shown than
exist. -/
def create_result_description (text query : List Char) : ResultDescription :=
  let total_occurrences := countOcc (casefold text) (casefold query)
  let triples := collectOccs (casefold query) (splitLines text) 0 0
  { occurrence_blocks :=
      triples.map (fun t => format_query_occurrence t.1 t.2.1 t.2.2 query)
    total_occurrences := total_occurrences
    more_occurrences :=
      if triples.length < total_occurrences then
        some (total_occurrences - triples.length)
      else none }

/-- A concrete `SearchCacheItem` for counterexamples and witnesses. -/
def cexItem : SearchCacheItem :=
  { query := "q", user := none, after_time := none, before_time := none,
    time_str := "", cur_page := 0, discord_user_id := 1,
    response_data := none, request_page := 0 }

/-- A cache holding `cexItem`'s address under message id `"m"`. -/
def cexCache : SearchCache := (SearchCache.empty 10).set "m" 0 3

/-- A heap with `cexItem` at address `0`. -/
def cexHeap : ItemHeap := [cexItem]

/-- A mutation a caller can apply to the dict returned by `get`, e.g.
`item["cur_page"] = 99`. -/
def mutCurPage (it : SearchCacheItem) : SearchCacheItem := { it with cur_page := 99 }

/-- A concrete provider payload with 12 results, as in the spec's
end-to-end scenario. -/
def demoResponse : ResponseData :=
  { count := 12,
    results := ["r1", "r2", "r3", "r4", "r5", "r6",
                "r7", "r8", "r9", "r10", "r11", "r12"] }

/-- A provider that always returns `demoResponse`. -/
def demoProvider : Int → ResponseData := fun _ => demoResponse

/-- The simulated initial cache item built by `Search.search`
(search.py lines 421-432): `cur_page = 0`, no response data yet. -/
def demoItem : SearchCacheItem :=
  { query := "err", user := none, after_time := none, before_time := none,
    time_str := "", cur_page := 0, discord_user_id := 1,
    response_data := none, request_page := 0 }

/-- `demoItem` after a batch has been cached for it. -/
def demoItemCached : SearchCacheItem := { demoItem with response_data := some demoResponse }

/-- Fresh orchestrator state: empty cache (capacity 10), empty heap. -/
def demoState : SearchState := { cache := SearchCache.empty 10, heap := [] }

/-- A 46-character query, long enough to leave the highlighter a context
budget of 6 characters. -/
def cexQuery : List Char := List.replicate 46 'a'

/-- A line containing `cexQuery` at position 10, with 10 characters of
left context and 3 of right context. -/
def cexLine : List Char := List.replicate 10 'x' ++ cexQuery ++ ['y', 'y', 'y']

/-- First render of the demo query (fetches batch 1, caches it). -/
def demoStep1 : StepResult := searchFromCache demoProvider 5 demoState "m" demoItem 0

/-- A `Next` reaction by the requester on the rendered message. -/
def demoStep2 : StepResult :=
  onReactionAdd demoProvider 5 demoStep1.state "m" ReactionEmoji.nextPage 1

example : countOcc "the cat catches catfish, cat!".data "cat".data = 4 := by decide

example : splitLines "ab\ncd\n".data = ["ab".data, "cd".data] := by decide

example :
    (create_result_description "cat cat cat\ncat cat cat".data "CAT".data).total_occurrences
      = 6 := by decide

example :
    (create_result_description "cat cat cat\ncat cat cat".data "CAT".data).occurrence_blocks.length
      = 4 := by decide

example :
    (create_result_description "cat cat cat\ncat cat cat".data "CAT".data).more_occurrences
      = some 2 := by decide

/-! ### Helper lemmas about the cache -/

theorem mem_dictSet_key {l : List (String × CacheEntryData)} {k : String}
    {v : CacheEntryData} {x : String × CacheEntryData}
    (hx : x ∈ dictSet l k v) (hk : x.1 = k) : x = (k, v) := by
  unfold dictSet at hx
  split at hx
  · rcases List.mem_map.mp hx with ⟨y, _, hy⟩
    by_cases hyk : y.1 == k
    · simpa [hyk] using hy.symm
    · rw [if_neg hyk] at hy
      subst hy
      simp [hk] at hyk
  · next hall =>
    rcases List.mem_append.mp hx with hx' | hx'
    · exfalso
      exact hall (List.any_eq_true.mpr ⟨x, hx', by simp [hk]⟩)
    · simpa using hx'

theorem mem_of_mem_clean {c : SearchCache} {x : String × CacheEntryData}
    (hx : x ∈ c.clean.cache) : x ∈ c.cache := by
  unfold SearchCache.clean at hx
  split at hx
  · split at hx
    · exact List.mem_of_mem_eraseP hx
    · exact hx
  · exact hx

theorem lookupEntry_mem {c : SearchCache} {k : String} {e : CacheEntryData}
    (h : c.lookupEntry k = some e) : (k, e) ∈ c.cache := by
  unfold SearchCache.lookupEntry at h
  rcases Option.map_eq_some'.mp h with ⟨y, hy, hye⟩
  have hmem := List.mem_of_find?_eq_some hy
  have hkey := List.find?_some hy
  simp only [beq_iff_eq] at hkey
  have : y = (k, e) := by
    rcases y with ⟨y1, y2⟩
    simp only at hye hkey
    simp [hkey, hye]
  rwa [this] at hmem

theorem set_lookupEntry_eq {c : SearchCache} {k : String} {a : Addr} {t : Nat}
    {e : CacheEntryData} (h : (c.set k a t).lookupEntry k = some e) :
    e = { last_modified := t, element := a } := by
  have hmem : (k, e) ∈ (c.set k a t).cache := lookupEntry_mem h
  have hmem' : (k, e) ∈ (c.rawInsert k a t).cache :=
    @mem_of_mem_clean (c.rawInsert k a t) _ hmem
  have := @mem_dictSet_key c.cache k { last_modified := t, element := a } _
    hmem' rfl
  simpa using congrArg Prod.snd this

/-! ### Claim theorems -/

/-- Claim C7: for every display page `p ≥ 0` (with display page size 5
and request batch size 25) the orchestrator computes
`request_page = floor(p * 5 / 25)` and the offset within the batch as
`p * 5 - request_page * 25`; in particular page 7 maps to batch index 1
with offset 10. -/
theorem requestPage_and_offset_formula :
    (∀ p : Nat,
      Search.requestPageOf p = ((p * 5 / 25 : Nat) : Int) ∧
      Search.resultOffsetOf p = (p * 5 : Int) - ((p * 5 / 25 : Nat) : Int) * 25) ∧
    Search.requestPageOf 7 = 1 ∧ Search.resultOffsetOf 7 = 10 := by
  have hmain : ∀ p : Nat, Search.requestPageOf p = ((p * 5 / 25 : Nat) : Int) := by
    intro p
    simp only [Search.requestPageOf, Search.discord_page_size, Search.request_page_size]
    rw [Int.fdiv_eq_ediv _ (by norm_num)]
    push_cast
    omega
  refine ⟨fun p => ⟨hmain p, ?_⟩, by decide, by decide⟩
  simp only [Search.resultOffsetOf, Search.discord_page_size, Search.request_page_size]
  rw [hmain p]
  push_cast
  ring

/-- Claim C1 (counterexample): `SearchCache.get` does not return a copy.
For the concrete cache `cexCache` holding the item `cexItem` at address
0 under key `"m"`, mutating the dict returned by `get("m")` changes what
a subsequent `get("m")` observes. -/
theorem get_no_copy_counterexample :
    readElement cexCache (cexHeap.mutate 0 mutCurPage) "m" ≠
      readElement cexCache cexHeap "m" := by
  decide

/-- Claim C1 (amended): `SearchCache.get` returns the stored entry
itself (a reference, `item["element"]`), not a copy: for every cache
state and key present in the cache, a mutation applied through the
returned reference is visible to any subsequent `get` of that key. -/
theorem get_returns_alias (c : SearchCache) (h : ItemHeap) (k : String) (a : Addr)
    (f : SearchCacheItem → SearchCacheItem) (x : SearchCacheItem)
    (hget : c.get k = some a) (hx : h[a]? = some x) :
    readElement c h k = some x ∧
    readElement c (h.mutate a f) k = some (f x) := by
  have hlt : a < h.length := (List.getElem?_eq_some.mp hx).1
  constructor
  · simp [readElement, hget, hx]
  · simp only [readElement, ItemHeap.mutate, hget, hx]
    rw [List.getElem?_set_self']
    simp [List.getElem?_eq_getElem hlt, (List.getElem?_eq_some.mp hx).2]

/-- Witness for `get_returns_alias` at the concrete counterexample
state. -/
theorem get_returns_alias_witness :
    readElement cexCache cexHeap "m" = some cexItem ∧
    readElement cexCache (cexHeap.mutate 0 mutCurPage) "m" = some (mutCurPage cexItem) :=
  get_returns_alias cexCache cexHeap "m" 0 mutCurPage cexItem (by decide) (by decide)

/-- Claim C10: `SearchCache.set`'s default `time` value is the single
timestamp `t0` fixed when the class is defined, so any two entries
written through calls that omit the `time` argument (as every production
call of the Search cog does) record equal `last_modified` timestamps:
the eviction order among them does not reflect the order or recency of
the writes. -/
theorem set_default_time_constant (t0 : Nat) (c1 c2 : SearchCache) (k1 k2 : String)
    (a1 a2 : Addr) (e1 e2 : CacheEntryData)
    (h1 : (SearchCache.setDefault t0 c1 k1 a1).lookupEntry k1 = some e1)
    (h2 : (SearchCache.setDefault t0 c2 k2 a2).lookupEntry k2 = some e2) :
    e1.last_modified = t0 ∧ e2.last_modified = t0 ∧
    e1.last_modified = e2.last_modified := by
  have := set_lookupEntry_eq h1
  have := set_lookupEntry_eq h2
  subst e1
  subst e2
  exact ⟨rfl, rfl, rfl⟩

/-- Witness for `set_default_time_constant`: two concrete writes through
the default parameter both record timestamp 7. -/
theorem set_default_time_constant_witness :
    ({ last_modified := 7, element := 0 } : CacheEntryData).last_modified = 7 ∧
    ({ last_modified := 7, element := 1 } : CacheEntryData).last_modified = 7 ∧
    ({ last_modified := 7, element := 0 } : CacheEntryData).last_modified =
      ({ last_modified := 7, element := 1 } : CacheEntryData).last_modified :=
  set_default_time_constant 7 (SearchCache.empty 10) (SearchCache.empty 10)
    "m1" "m2" 0 1 _ _ (by decide) (by decide)

/-- Claim C2 (code evaluated at the failing input): two successive
navigation renders of message `"m"` — the initial search and a `Next`
reaction — both overwrite the cache entry through `SearchCache.set`
without a `time` argument, so both record the module-load timestamp
(here `5`): the second write's `last_modified` is *not* strictly later
than the first's, although the entry is overwritten with the new current
page (`cur_page = 1`). -/
theorem navigation_timestamp_not_fresh :
    (demoStep1.state.cache.lookupEntry "m").map CacheEntryData.last_modified = some 5 ∧
    ((demoStep2.state.cache.lookupEntry "m").map CacheEntryData.last_modified = some 5 ∧
      demoStep2.edited = true) ∧
    (readElement demoStep2.state.cache demoStep2.state.heap "m").map
      SearchCacheItem.cur_page = some 1 := by
  decide

/-- Claim C4: on a re-render from the cache, the provider is called if
and only if the target page's request batch index differs from the
cached `request_page` or no response data is cached; otherwise the
cached batch is reused unchanged and no request is made. -/
theorem provider_called_iff (provider : Int → ResponseData) (t0 : Nat)
    (st : SearchState) (msgId : String) (item : SearchCacheItem) (page_mod : Int) :
    ((searchFromCache provider t0 st msgId item page_mod).fetched = true ↔
      (item.response_data = none ∨
        Search.requestPageOf (item.cur_page + page_mod) ≠ item.request_page)) ∧
    (∀ rd : ResponseData, item.response_data = some rd →
      Search.requestPageOf (item.cur_page + page_mod) = item.request_page →
      (searchFromCache provider t0 st msgId item page_mod).fetched = false ∧
      (searchFromCache provider t0 st msgId item page_mod).response_data = some rd) := by
  constructor
  · cases hrd : item.response_data with
    | none =>
      simp only [searchFromCache, hrd]
      split <;> simp
    | some rd =>
      by_cases hreq : Search.requestPageOf (item.cur_page + page_mod) = item.request_page
      · have hne : ¬(Search.requestPageOf (item.cur_page + page_mod) ≠ item.request_page) := by
          simp [hreq]
        simp only [searchFromCache, hrd, if_neg hne]
        split <;> simp [hreq]
      · simp only [searchFromCache, hrd, if_pos hreq]
        split <;> simp [hreq]
  · intro rd hrd hreq
    have hne : ¬(Search.requestPageOf (item.cur_page + page_mod) ≠ item.request_page) := by
      simp [hreq]
    simp only [searchFromCache, hrd, if_neg hne]
    split <;> simp

/-- Witness for `provider_called_iff`: navigating from page 0 to page 1
with batch 0 cached makes no provider call and reuses the cached
batch. -/
theorem provider_called_iff_witness :
    (searchFromCache demoProvider 5 demoState "m" demoItemCached 1).fetched = false ∧
    (searchFromCache demoProvider 5 demoState "m" demoItemCached 1).response_data =
      some demoResponse :=
  (provider_called_iff demoProvider 5 demoState "m" demoItemCached 1).2
    demoResponse rfl (by decide)

/-- Claim C6: a reaction event is ignored — no provider call, no cache
mutation, no message edit — whenever the message has no cache entry, the
reactor is not the stored requester, `First`/`Previous` arrives at page
0, `Next`/`Last` arrives at the last page
(`ceil(count / page_size) - 1`), or the emoji is not one of the four
controls. -/
theorem reaction_noop_conditions (provider : Int → ResponseData) (t0 : Nat)
    (st : SearchState) (msgId : String) (emoji : ReactionEmoji) (uid : Nat)
    (h : SearchCache.get st.cache msgId = none ∨
      ∃ a item, SearchCache.get st.cache msgId = some a ∧ st.heap[a]? = some item ∧
        (item.discord_user_id ≠ uid ∨
         ((emoji = ReactionEmoji.firstPage ∨ emoji = ReactionEmoji.previousPage) ∧
           item.cur_page = 0) ∨
         ((emoji = ReactionEmoji.nextPage ∨ emoji = ReactionEmoji.lastPage) ∧
           ∃ rd, item.response_data = some rd ∧
             item.cur_page = Search.lastPageOf rd.count) ∨
         (∃ s, emoji = ReactionEmoji.other s))) :
    onReactionAdd provider t0 st msgId emoji uid = noopResult st := by
  rcases h with hnone | ⟨a, item, hget, hitem, hcase⟩
  · simp [onReactionAdd, hnone]
  · simp only [onReactionAdd, hget, hitem]
    rcases hcase with huid | ⟨hfp, hpage⟩ | ⟨hnl, rd, hrd, hpage⟩ | ⟨s, hs⟩
    · simp [huid]
    · by_cases huid : item.discord_user_id ≠ uid
      · simp [huid]
      · rcases hfp with he | he <;> subst he <;> simp [huid, hpage]
    · by_cases huid : item.discord_user_id ≠ uid
      · simp [huid]
      · rcases hnl with he | he <;> subst he <;> simp [huid, hrd, hpage]
    · subst hs
      by_cases huid : item.discord_user_id ≠ uid <;> simp [huid]

/-- Witness for `reaction_noop_conditions`: a `Next` reaction on a
message with no cache entry is a no-op. -/
theorem reaction_noop_conditions_witness :
    onReactionAdd demoProvider 5 demoState "m" ReactionEmoji.nextPage 1 =
      noopResult demoState :=
  reaction_noop_conditions demoProvider 5 demoState "m" ReactionEmoji.nextPage 1
    (Or.inl (by decide))

/-! ### Eviction and size lemmas -/

theorem oldestEntry_eq_none {l : List (String × CacheEntryData)}
    (h : oldestEntry l = none) : l = [] := by
  cases l with
  | nil => rfl
  | cons e rest =>
    exfalso
    cases hrest : oldestEntry rest with
    | none => simp [oldestEntry, hrest] at h
    | some b =>
      simp only [oldestEntry, hrest] at h
      split at h <;> simp at h

theorem oldestEntry_mem : ∀ {l : List (String × CacheEntryData)}
    {e : String × CacheEntryData}, oldestEntry l = some e → e ∈ l := by
  intro l
  induction l with
  | nil => intro e h; simp [oldestEntry] at h
  | cons x rest ih =>
    intro e h
    cases hrest : oldestEntry rest with
    | none =>
      simp only [oldestEntry, hrest] at h
      have : x = e := by simpa using h
      simp [this]
    | some b =>
      simp only [oldestEntry, hrest] at h
      split at h
      · have hbe : b = e := by simpa using h
        subst hbe
        exact List.mem_cons_of_mem _ (ih hrest)
      · have hxe : x = e := by simpa using h
        simp [hxe]

theorem oldestEntry_min : ∀ {l : List (String × CacheEntryData)}
    {e : String × CacheEntryData}, oldestEntry l = some e →
    ∀ x ∈ l, e.2.last_modified ≤ x.2.last_modified := by
  intro l
  induction l with
  | nil => intro e h; simp [oldestEntry] at h
  | cons y rest ih =>
    intro e h x hx
    cases hrest : oldestEntry rest with
    | none =>
      have hre : rest = [] := oldestEntry_eq_none hrest
      subst hre
      simp only [oldestEntry] at h
      have hye : y = e := by simpa using h
      subst hye
      rcases List.mem_cons.mp hx with h1 | h1
      · subst h1
        exact le_refl _
      · simp at h1
    | some b =>
      have hbmin := ih hrest
      simp only [oldestEntry, hrest] at h
      rcases List.mem_cons.mp hx with h1 | h1
      · subst h1
        split at h
        · next hlt =>
          have hbe : b = e := by simpa using h
          subst hbe
          exact le_of_lt hlt
        · have hye : x = e := by simpa using h
          subst hye
          exact le_refl _
      · split at h
        · have hbe : b = e := by simpa using h
          subst hbe
          exact hbmin x h1
        · next hnlt =>
          have hye : y = e := by simpa using h
          subst hye
          exact le_trans (le_of_not_lt hnlt) (hbmin x h1)

theorem dictSet_length {l : List (String × CacheEntryData)} {k : String}
    {v : CacheEntryData} :
    (dictSet l k v).length = l.length ∨ (dictSet l k v).length = l.length + 1 := by
  unfold dictSet
  split
  · left
    simp
  · right
    simp

theorem clean_capacity (c : SearchCache) : c.clean.capacity = c.capacity := by
  unfold SearchCache.clean
  split
  · split <;> rfl
  · rfl

theorem set_capacity (c : SearchCache) (k : String) (a : Addr) (t : Nat) :
    (c.set k a t).capacity = c.capacity := by
  unfold SearchCache.set SearchCache.rawInsert
  rw [clean_capacity]

theorem clean_size_le_capacity {c : SearchCache}
    (h : c.cache.length ≤ c.capacity + 1) : c.clean.size ≤ c.capacity := by
  unfold SearchCache.clean SearchCache.size
  split
  · next hover =>
    cases hold : oldestEntry c.cache with
    | none =>
      exfalso
      rw [oldestEntry_eq_none hold] at hover
      simp at hover
    | some e =>
      simp only []
      rw [List.length_eraseP_of_mem (oldestEntry_mem hold) (by simp)]
      omega
  · next hok => omega

theorem clean_size_ge (c : SearchCache) : c.size - 1 ≤ c.clean.size := by
  unfold SearchCache.clean SearchCache.size
  split
  · cases hold : oldestEntry c.cache with
    | none => simp
    | some e =>
      simp only []
      rw [List.length_eraseP_of_mem (oldestEntry_mem hold) (by simp)]
  · omega

theorem rawInsert_size (c : SearchCache) (k : String) (a : Addr) (t : Nat) :
    (c.rawInsert k a t).size = c.size ∨ (c.rawInsert k a t).size = c.size + 1 :=
  dictSet_length

theorem set_size_le {c : SearchCache} {cap : Nat} (hcapc : c.capacity = cap)
    (h : c.size ≤ cap) (k : String) (a : Addr) (t : Nat) :
    (c.set k a t).size ≤ cap := by
  unfold SearchCache.set
  have hraw : (c.rawInsert k a t).cache.length ≤ (c.rawInsert k a t).capacity + 1 := by
    have := rawInsert_size c k a t
    unfold SearchCache.size at this h
    unfold SearchCache.rawInsert
    simp only []
    unfold SearchCache.rawInsert at this
    simp only [] at this
    omega
  have := clean_size_le_capacity hraw
  unfold SearchCache.rawInsert at this
  simp only [] at this
  rwa [← hcapc]

theorem runOps_size_le {cap : Nat} (ops : List CacheOp) (c : SearchCache)
    (hcapc : c.capacity = cap) (h : c.size ≤ cap) : (runOps c ops).size ≤ cap := by
  induction ops generalizing c with
  | nil => exact h
  | cons op ops ih =>
    cases op with
    | set k a t =>
      exact ih (c.set k a t) (by rw [set_capacity, hcapc]) (set_size_le hcapc h k a t)
    | get k => exact ih c hcapc h

/-- Claim C3: for any sequence of `set`/`get` operations on a cache of
capacity `cap ≥ 1`, the size stays within `[0, cap]`; a single `set`
removes at most one entry; and when an insertion pushes the size past
the capacity, the entry popped is one with the smallest `last_modified`
among all entries present after the insertion. -/
theorem cache_size_and_eviction_invariants (cap : Nat) (hcap : 1 ≤ cap) :
    (∀ ops : List CacheOp, (runOps (SearchCache.empty cap) ops).size ≤ cap) ∧
    (∀ (c : SearchCache) (k : String) (a : Addr) (t : Nat),
      (c.rawInsert k a t).size ≤ (c.set k a t).size + 1) ∧
    (∀ (c : SearchCache) (k : String) (a : Addr) (t : Nat),
      c.capacity < (c.rawInsert k a t).size →
      ∃ e, e ∈ (c.rawInsert k a t).cache ∧
        (∀ x ∈ (c.rawInsert k a t).cache, e.2.last_modified ≤ x.2.last_modified) ∧
        (c.set k a t).cache = (c.rawInsert k a t).cache.eraseP (fun x => x.1 == e.1)) := by
  refine ⟨fun ops => runOps_size_le ops _ rfl (by simp [SearchCache.empty, SearchCache.size]), ?_, ?_⟩
  · intro c k a t
    have := clean_size_ge (c.rawInsert k a t)
    unfold SearchCache.set
    omega
  · intro c k a t hover
    cases hold : oldestEntry (c.rawInsert k a t).cache with
    | none =>
      exfalso
      have := oldestEntry_eq_none hold
      unfold SearchCache.size at hover
      rw [this] at hover
      simp at hover
    | some e =>
      refine ⟨e, oldestEntry_mem hold, oldestEntry_min hold, ?_⟩
      unfold SearchCache.set SearchCache.clean
      have hcond : (c.rawInsert k a t).capacity < (c.rawInsert k a t).cache.length := by
        unfold SearchCache.rawInsert
        unfold SearchCache.size SearchCache.rawInsert at hover
        simpa using hover
      rw [if_pos hcond, hold]

/-- Witness for `cache_size_and_eviction_invariants` at capacity 1 with
three concrete operations. -/
theorem cache_size_and_eviction_invariants_witness :
    (runOps (SearchCache.empty 1)
      [CacheOp.set "a" 0 3, CacheOp.set "b" 1 4, CacheOp.get "a"]).size ≤ 1 :=
  (cache_size_and_eviction_invariants 1 (by decide)).1
    [CacheOp.set "a" 0 3, CacheOp.set "b" 1 4, CacheOp.get "a"]

/-- Claim C5: `SearchCache.get` leaves the cache state unchanged (it
never refreshes `last_modified`), so deleting the `get` operations from
any operation sequence yields the same final state — in particular,
interleaved reads never change which entry a later over-capacity
insertion evicts. -/
theorem get_reads_only :
    (∀ (c : SearchCache) (k : String), stepOp c (CacheOp.get k) = c) ∧
    (∀ (c : SearchCache) (ops : List CacheOp),
      runOps c ops = runOps c (ops.filter CacheOp.isSet)) := by
  refine ⟨fun c k => rfl, fun c ops => ?_⟩
  induction ops generalizing c with
  | nil => rfl
  | cons op ops ih =>
    cases op with
    | set k a t =>
      have hkeep : List.filter CacheOp.isSet (CacheOp.set k a t :: ops) =
          CacheOp.set k a t :: List.filter CacheOp.isSet ops := by
        simp [List.filter_cons, CacheOp.isSet]
      simp only [runOps, List.foldl_cons, stepOp, hkeep]
      exact ih (c.set k a t)
    | get k =>
      have hdrop : List.filter CacheOp.isSet (CacheOp.get k :: ops) =
          List.filter CacheOp.isSet ops := by
        simp [List.filter_cons, CacheOp.isSet]
      simp only [runOps, List.foldl_cons, stepOp, hdrop]
      exact ih c

/-! ### Occurrence-counting lemmas -/

theorem casefoldChar_newline {c : Char} (h : casefoldChar c = '\n') : c = '\n' := by
  unfold casefoldChar at h
  split at h
  all_goals first
  | exact h
  | (exfalso; exact absurd h (by decide))

theorem casefold_newline_not_mem {q : List Char} (h : '\n' ∉ q) : '\n' ∉ casefold q := by
  intro hmem
  rcases List.mem_map.mp hmem with ⟨c, hc, hfc⟩
  exact h (casefoldChar_newline hfc ▸ hc)

theorem casefold_append (a b : List Char) :
    casefold (a ++ b) = casefold a ++ casefold b :=
  List.map_append _ _ _

theorem casefold_newline_cons (b : List Char) :
    casefold ('\n' :: b) = '\n' :: casefold b := rfl

theorem occPositionsAux_eq (q : List Char) :
    ∀ (s : List Char) (skip : Nat),
      occPositionsAux q s skip =
        (occPositionsAux q (s.drop skip) 0).map (fun m => m + skip) := by
  intro s
  induction s with
  | nil => intro skip; simp [occPositionsAux]
  | cons c rest ih =>
    intro skip
    cases skip with
    | zero => simp
    | succ k =>
      simp only [occPositionsAux, List.drop_succ_cons]
      rw [ih k]
      simp [List.map_map, Function.comp, Nat.add_assoc]

theorem occPositions_cons_pos {q : List Char} {c : Char} {rest : List Char}
    (hq : q ≠ []) (hp : (c :: rest).take q.length = q) :
    occPositions q (c :: rest) =
      0 :: (occPositions q ((c :: rest).drop q.length)).map (fun m => m + q.length) := by
  have hql : 0 < q.length := List.length_pos.mpr hq
  unfold occPositions
  simp only [occPositionsAux, if_pos (And.intro hq hp)]
  rw [occPositionsAux_eq q rest (q.length - 1)]
  have hdrop : (c :: rest).drop q.length = rest.drop (q.length - 1) := by
    obtain ⟨k, hk⟩ : ∃ k, q.length = k + 1 := ⟨q.length - 1, by omega⟩
    rw [hk]
    simp
  rw [hdrop]
  simp [List.map_map, Function.comp, Nat.add_assoc, Nat.sub_add_cancel hql]

theorem occPositions_cons_neg {q : List Char} {c : Char} {rest : List Char}
    (h : ¬(q ≠ [] ∧ (c :: rest).take q.length = q)) :
    occPositions q (c :: rest) = (occPositions q rest).map (fun m => m + 1) := by
  unfold occPositions
  simp only [occPositionsAux, if_neg h]

theorem countOcc_nil (q : List Char) : countOcc [] q = 0 := rfl

theorem countOcc_cons_pos {q : List Char} {c : Char} {rest : List Char}
    (hq : q ≠ []) (hp : (c :: rest).take q.length = q) :
    countOcc (c :: rest) q = countOcc ((c :: rest).drop q.length) q + 1 := by
  unfold countOcc
  rw [occPositions_cons_pos hq hp]
  simp [Nat.add_comm]

theorem countOcc_cons_neg {q : List Char} {c : Char} {rest : List Char}
    (h : ¬(q ≠ [] ∧ (c :: rest).take q.length = q)) :
    countOcc (c :: rest) q = countOcc rest q := by
  unfold countOcc
  rw [occPositions_cons_neg h]
  simp

theorem take_eq_within {a t q : List Char} (hlen : q.length ≤ a.length)
    (hp : (a ++ t).take q.length = q) : a.take q.length = q := by
  rwa [List.take_append_of_le_length hlen] at hp

theorem newline_mem_of_take_long {a b q : List Char} (hlen : a.length < q.length)
    (hp : (a ++ '\n' :: b).take q.length = q) : '\n' ∈ q := by
  rw [List.take_append_eq_append_take] at hp
  obtain ⟨k, hk⟩ : ∃ k, q.length - a.length = k + 1 := ⟨q.length - a.length - 1, by omega⟩
  rw [hk, List.take_succ_cons] at hp
  rw [← hp]
  exact List.mem_append_right _ (List.mem_cons_self _ _)

theorem countOcc_newline_cons {q : List Char} (hq : q ≠ []) (hnl : '\n' ∉ q)
    (b : List Char) : countOcc ('\n' :: b) q = countOcc b q := by
  have hql : 0 < q.length := List.length_pos.mpr hq
  apply countOcc_cons_neg
  rintro ⟨-, hp⟩
  exact hnl (@newline_mem_of_take_long [] b q (by simpa using hql)
    (by simpa using hp))

theorem countOcc_append_newline {q : List Char} (hq : q ≠ []) (hnl : '\n' ∉ q) :
    ∀ (a b : List Char), countOcc (a ++ '\n' :: b) q = countOcc a q + countOcc b q := by
  have hql : 0 < q.length := List.length_pos.mpr hq
  have key : ∀ (n : Nat) (a b : List Char), a.length ≤ n →
      countOcc (a ++ '\n' :: b) q = countOcc a q + countOcc b q := by
    intro n
    induction n with
    | zero =>
      intro a b ha
      have hae : a = [] := List.eq_nil_of_length_eq_zero (by omega)
      subst hae
      simp [countOcc_newline_cons hq hnl b, countOcc_nil]
    | succ n ih =>
      intro a b ha
      cases a with
      | nil => simp [countOcc_newline_cons hq hnl b, countOcc_nil]
      | cons c a' =>
        have ha' : a'.length ≤ n := by
          have : a'.length + 1 ≤ n + 1 := by simpa using ha
          omega
        by_cases hp : ((c :: a') ++ '\n' :: b).take q.length = q
        · by_cases hlen : q.length ≤ (c :: a').length
          · have hpa : (c :: a').take q.length = q := take_eq_within hlen hp
            have e1 : countOcc ((c :: a') ++ '\n' :: b) q =
                countOcc (((c :: a') ++ '\n' :: b).drop q.length) q + 1 :=
              countOcc_cons_pos hq hp
            rw [List.drop_append_of_le_length hlen] at e1
            have e2 : countOcc (c :: a') q = countOcc ((c :: a').drop q.length) q + 1 :=
              countOcc_cons_pos hq hpa
            have hdlen : ((c :: a').drop q.length).length ≤ n := by
              simp only [List.length_drop, List.length_cons]
              omega
            have e3 := ih ((c :: a').drop q.length) b hdlen
            omega
          · exact absurd (newline_mem_of_take_long (by simp at hlen ⊢; omega) hp) hnl
        · have hpa : ¬(c :: a').take q.length = q := by
            intro hcontra
            apply hp
            have hlen : q.length ≤ (c :: a').length := by
              have := congrArg List.length hcontra
              simp only [List.length_take] at this
              omega
            exact (List.take_append_of_le_length hlen).trans hcontra
          have e1 : countOcc ((c :: a') ++ '\n' :: b) q = countOcc (a' ++ '\n' :: b) q :=
            countOcc_cons_neg (by rintro ⟨-, hcontra⟩; exact hp hcontra)
          have e2 : countOcc (c :: a') q = countOcc a' q :=
            countOcc_cons_neg (by rintro ⟨-, h2⟩; exact hpa h2)
          have e3 := ih a' b ha'
          omega
  intro a b
  exact key a.length a b (le_refl _)

/-! ### splitLines lemmas -/

theorem splitLinesAux_no_newline :
    ∀ (s cur : List Char), '\n' ∉ s → splitLinesAux cur s = [cur.reverse ++ s] := by
  intro s
  induction s with
  | nil => intro cur _; simp [splitLinesAux]
  | cons c rest ih =>
    intro cur h
    have hc : ¬ c = '\n' := fun hcc => h (by simp [hcc])
    have hrest : '\n' ∉ rest := fun hr => h (List.mem_cons_of_mem _ hr)
    simp only [splitLinesAux, if_neg hc]
    rw [ih (c :: cur) hrest]
    simp

theorem splitLinesAux_append_newline :
    ∀ (a : List Char), '\n' ∉ a → ∀ (cur b : List Char),
      splitLinesAux cur (a ++ '\n' :: b) =
        (cur.reverse ++ a) ::
          (match b with | [] => [] | _ :: _ => splitLinesAux [] b) := by
  intro a
  induction a with
  | nil =>
    intro _ cur b
    simp [splitLinesAux]
  | cons c a' ih =>
    intro h cur b
    have hc : ¬ c = '\n' := fun hcc => h (by simp [hcc])
    have ha' : '\n' ∉ a' := fun hr => h (List.mem_cons_of_mem _ hr)
    simp only [List.cons_append, splitLinesAux, if_neg hc, List.append_eq]
    rw [ih ha' (c :: cur) b]
    simp

theorem splitLines_no_newline {s : List Char} (h : '\n' ∉ s) :
    splitLines s = if s = [] then [] else [s] := by
  cases s with
  | nil => rfl
  | cons c rest =>
    simp only [splitLines]
    rw [splitLinesAux_no_newline (c :: rest) [] h]
    simp

theorem splitLines_append_newline {a : List Char} (h : '\n' ∉ a) (b : List Char) :
    splitLines (a ++ '\n' :: b) = a :: splitLines b := by
  have hmain := splitLinesAux_append_newline a h [] b
  have hred : splitLines (a ++ '\n' :: b) = splitLinesAux [] (a ++ '\n' :: b) := by
    cases a with
    | nil => rfl
    | cons c a' => rfl
  rw [hred, hmain]
  cases b with
  | nil => rfl
  | cons x b' => rfl

theorem exists_newline_split {s : List Char} (h : '\n' ∈ s) :
    ∃ a b, s = a ++ '\n' :: b ∧ '\n' ∉ a ∧ b.length < s.length := by
  induction s with
  | nil => simp at h
  | cons c rest ih =>
    by_cases hc : c = '\n'
    · exact ⟨[], rest, by simp [hc], by simp, by simp⟩
    · have hr : '\n' ∈ rest := by
        rcases List.mem_cons.mp h with h1 | h1
        · exact absurd h1.symm hc
        · exact h1
      rcases ih hr with ⟨a, b, hs, hna, hlt⟩
      refine ⟨c :: a, b, by simp [hs], ?_, ?_⟩
      · intro hm
        rcases List.mem_cons.mp hm with h1 | h1
        · exact hc h1.symm
        · exact hna h1
      · simp only [List.length_cons]
        omega

theorem countOcc_casefold_splitLines {q : List Char} (hq : q ≠ []) (hnl : '\n' ∉ q) :
    ∀ s : List Char, countOcc (casefold s) q =
      ((splitLines s).map (fun l => countOcc (casefold l) q)).sum := by
  have key : ∀ (n : Nat) (s : List Char), s.length ≤ n →
      countOcc (casefold s) q =
        ((splitLines s).map (fun l => countOcc (casefold l) q)).sum := by
    intro n
    induction n with
    | zero =>
      intro s hs
      have : s = [] := List.eq_nil_of_length_eq_zero (by omega)
      subst this
      simp [splitLines, casefold, countOcc_nil]
    | succ n ih =>
      intro s hs
      by_cases hmem : '\n' ∈ s
      · rcases exists_newline_split hmem with ⟨a, b, hsab, hna, hlt⟩
        subst hsab
        rw [splitLines_append_newline hna b, casefold_append, casefold_newline_cons,
          countOcc_append_newline hq hnl (casefold a) (casefold b),
          List.map_cons, List.sum_cons]
        have hbn : b.length ≤ n := by
          have : a.length + (b.length + 1) ≤ n + 1 := by simpa using hs
          omega
        rw [ih b hbn]
      · rw [splitLines_no_newline hmem]
        by_cases hse : s = []
        · subst hse
          simp [casefold, countOcc_nil]
        · rw [if_neg hse]
          simp
  intro s
  exact key s.length s (le_refl _)

theorem collectOccs_length (qcf : List Char) :
    ∀ (lines : List (List Char)) (i cur : Nat),
      (collectOccs qcf lines i cur).length =
        min (max_occurrences - cur)
          ((lines.map (fun l => countOcc (casefold l) qcf)).sum) := by
  intro lines
  induction lines with
  | nil => intro i cur; simp [collectOccs]
  | cons line rest ih =>
    intro i cur
    simp only [collectOccs]
    split
    · next hstop =>
      simp only [List.length_take, countOcc] at hstop
      simp only [List.length_map, List.length_take, List.map_cons, List.sum_cons,
        countOcc, max_occurrences] at hstop ⊢
      omega
    · next hcont =>
      rw [List.length_append, ih (i + 1) _]
      simp only [List.length_take, countOcc] at hcont
      simp only [List.length_map, List.length_take, List.map_cons, List.sum_cons,
        countOcc, max_occurrences] at hcont ⊢
      omega

/-- Claim C8 (counterexample): for the query `"a\nb"` (non-empty, but
containing a line break) in the text `"a\nb"`, the case-insensitive
count over the full text is 1, yet the line-by-line scan renders 0
occurrence blocks, so the description does not contain
`min(totalOccurrences, 4)` blocks. -/
theorem description_newline_query_counterexample :
    (create_result_description "a\nb".data "a\nb".data).total_occurrences = 1 ∧
    (create_result_description "a\nb".data "a\nb".data).occurrence_blocks.length = 0 ∧
    (create_result_description "a\nb".data "a\nb".data).occurrence_blocks.length ≠
      min (create_result_description "a\nb".data "a\nb".data).total_occurrences
        max_occurrences := by
  decide

/-- Claim C8 (amended): for every record text and non-empty query that
contains no line break, the description contains exactly
`min(totalOccurrences, maxOccurrences)` highlighted occurrence blocks,
where `totalOccurrences` is the case-insensitive count of the query in
the full text; and (for any text and such query) it reports a trailer
with exactly `totalOccurrences` minus the number of shown blocks if and
only if fewer blocks are shown than `totalOccurrences`. -/
theorem create_result_description_spec (text query : List Char)
    (hq : query ≠ []) (hnl : '\n' ∉ query) :
    (create_result_description text query).occurrence_blocks.length =
      min (create_result_description text query).total_occurrences max_occurrences ∧
    ∀ k : Nat,
      ((create_result_description text query).more_occurrences = some k ↔
        ((create_result_description text query).occurrence_blocks.length <
            (create_result_description text query).total_occurrences ∧
          k = (create_result_description text query).total_occurrences -
            (create_result_description text query).occurrence_blocks.length)) := by
  have hq' : casefold query ≠ [] := by
    intro h'
    exact hq (List.map_eq_nil_iff.mp h')
  have hnl' : '\n' ∉ casefold query := casefold_newline_not_mem hnl
  have hsum := countOcc_casefold_splitLines hq' hnl' text
  have hlen := collectOccs_length (casefold query) (splitLines text) 0 0
  have hshown :
      (create_result_description text query).occurrence_blocks.length =
        min (create_result_description text query).total_occurrences max_occurrences := by
    simp only [create_result_description, List.length_map]
    rw [hlen, ← hsum]
    simp only [max_occurrences, Nat.sub_zero]
    omega
  refine ⟨hshown, fun k => ?_⟩
  simp only [create_result_description, List.length_map] at hshown ⊢
  split
  · next hlt =>
    constructor
    · intro hk
      have := Option.some_injective _ hk
      omega
    · intro ⟨_, hk⟩
      exact congrArg some hk.symm
  · next hge =>
    constructor
    · intro hk
      simp at hk
    · intro ⟨hlt, _⟩
      omega

/-- Witness for `create_result_description_spec` at the spec's own test
vector: 6 occurrences of `"cat"` shown as 4 blocks with a trailer of
2. -/
theorem create_result_description_spec_witness :
    (create_result_description "cat cat cat\ncat cat cat".data "CAT".data).occurrence_blocks.length =
      min (create_result_description "cat cat cat\ncat cat cat".data "CAT".data).total_occurrences
        max_occurrences ∧
    ((create_result_description "cat cat cat\ncat cat cat".data "CAT".data).more_occurrences = some 2 ↔
      ((create_result_description "cat cat cat\ncat cat cat".data "CAT".data).occurrence_blocks.length <
          (create_result_description "cat cat cat\ncat cat cat".data "CAT".data).total_occurrences ∧
        2 = (create_result_description "cat cat cat\ncat cat cat".data "CAT".data).total_occurrences -
          (create_result_description "cat cat cat\ncat cat cat".data "CAT".data).occurrence_blocks.length)) :=
  ⟨(create_result_description_spec "cat cat cat\ncat cat cat".data "CAT".data
      (by decide) (by decide)).1,
   (create_result_description_spec "cat cat cat\ncat cat cat".data "CAT".data
      (by decide) (by decide)).2 2⟩

/-! ### Highlighter-budget lemmas -/

theorem pySliceIdx_le (len : Nat) (i : Int) : pySliceIdx len i ≤ len := by
  unfold pySliceIdx
  split <;> omega

theorem pyTakeInt_length (s : List Char) (i : Int) :
    (pyTakeInt s i).length = pySliceIdx s.length i := by
  unfold pyTakeInt
  rw [List.length_take]
  have := pySliceIdx_le s.length i
  omega

theorem pyDropInt_length (s : List Char) (i : Int) :
    (pyDropInt s i).length = s.length - pySliceIdx s.length i := by
  unfold pyDropInt
  rw [List.length_drop]

theorem truncLeft_length {left : List Char} {lc : Int} (h4 : 4 ≤ lc) :
    ((truncLeft left lc).length : Int) = min (left.length : Int) lc := by
  unfold truncLeft
  split
  · next hgt =>
    simp only [List.length_append]
    rw [pyDropInt_length]
    have hd : dotsChars.length = 3 := rfl
    rw [hd]
    unfold pySliceIdx
    rw [if_pos (by omega)]
    push_cast
    omega
  · next hle =>
    omega

theorem truncRight_length {right : List Char} {rc : Int} (h3 : 3 ≤ rc) :
    ((truncRight right rc).length : Int) = min (right.length : Int) rc := by
  unfold truncRight
  split
  · next hgt =>
    simp only [List.length_append]
    rw [pyTakeInt_length]
    have hd : dotsChars.length = 3 := rfl
    rw [hd]
    unfold pySliceIdx
    rw [if_neg (by omega)]
    push_cast
    omega
  · next hle =>
    omega

theorem ceilHalf_eq (r : Int) : ceilHalf r = (r + 1) / 2 :=
  Int.fdiv_eq_ediv _ (by norm_num)

theorem floorHalf_eq (r : Int) : floorHalf r = r / 2 :=
  Int.fdiv_eq_ediv _ (by norm_num)

theorem fqoBudgets_spec (lenL lenR : Nat) (rem : Int) (h7 : 7 ≤ rem) :
    4 ≤ (fqoBudgets lenL lenR rem).1 ∧ 3 ≤ (fqoBudgets lenL lenR rem).2 ∧
    min (lenL : Int) (fqoBudgets lenL lenR rem).1 +
      min (lenR : Int) (fqoBudgets lenL lenR rem).2 ≤ rem := by
  simp only [fqoBudgets, ceilHalf_eq, floorHalf_eq]
  split
  · next h1 =>
    dsimp only
    refine ⟨by omega, by omega, by omega⟩
  · next h1 =>
    split
    · next h2 =>
      dsimp only
      refine ⟨by omega, by omega, by omega⟩
    · next h2 =>
      dsimp only
      refine ⟨by omega, by omega, by omega⟩

/-- Claim C9 (counterexample): with label `"L1: "` and a 46-character
query occurring at position 10 of `cexLine` (10 characters of left
context, 3 of right), the query and label fit the 56-character budget
(`46 + 4 ≤ 56`), yet the rendered context line has 66 characters: the
left-truncation `"..." + left[-left_chars + 3:]` with `left_chars = 3`
keeps the whole left context. -/
theorem format_budget_counterexample :
    cexQuery.length + (labelOf 1).length ≤ 56 ∧
    10 + cexQuery.length ≤ cexLine.length ∧
    casefold ((cexLine.drop 10).take cexQuery.length) = casefold cexQuery ∧
    (format_parts cexLine 1 10 cexQuery).1.length = 66 := by
  decide

/-- Claim C9 (amended): for every line, line number, query and
occurrence position such that the query occurs case-insensitively at
that position and `len(query) + len("L<n>: ") ≤ 49` (a remaining
context budget of at least 7), `format_query_occurrence` returns two
newline-terminated lines: a context line of length at most 56 that
contains the occurrence with its original casing, and an underline of
spaces followed by exactly `len(query)` dashes beginning at the column
where the occurrence begins in the context line. -/
theorem format_query_occurrence_spec (line : List Char) (line_num pos : Nat)
    (query : List Char) (hq : query ≠ [])
    (hin : pos + query.length ≤ line.length)
    (hmatch : casefold ((line.drop pos).take query.length) = casefold query)
    (hbudget : query.length + (labelOf line_num).length ≤ 49) :
    (format_parts line line_num pos query).1.length ≤ 56 ∧
    (∃ l r, (format_parts line line_num pos query).1 =
        labelOf line_num ++ l ++ (line.drop pos).take query.length ++ r ∧
      (format_parts line line_num pos query).2 =
        List.replicate (labelOf line_num ++ l).length ' ' ++
          List.replicate query.length '-') ∧
    format_query_occurrence line line_num pos query =
      (format_parts line line_num pos query).1 ++
        '\n' :: ((format_parts line line_num pos query).2 ++ ['\n']) := by
  have hocc : ((line.drop pos).take query.length).length = query.length := by
    rw [List.length_take, List.length_drop]
    omega
  have h7 : (7 : Int) ≤ 56 - (query.length : Int) - ((labelOf line_num).length : Int) := by
    omega
  obtain ⟨h4, h3, hsum⟩ := fqoBudgets_spec (line.take pos).length
    (line.drop (pos + query.length)).length
    (56 - (query.length : Int) - ((labelOf line_num).length : Int)) h7
  have hL := @truncLeft_length (line.take pos) _ h4
  have hR := @truncRight_length (line.drop (pos + query.length)) _ h3
  have hsnd : (format_parts line line_num pos query).2 =
      List.replicate ((labelOf line_num).length +
        (truncLeft (line.take pos)
          (fqoBudgets (line.take pos).length (line.drop (pos + query.length)).length
            (56 - (query.length : Int) - ((labelOf line_num).length : Int))).1).length) ' ' ++
      List.replicate query.length '-' := rfl
  refine ⟨?_, ⟨truncLeft (line.take pos) _, truncRight (line.drop (pos + query.length)) _,
    rfl, by rw [List.length_append]; exact hsnd⟩, rfl⟩
  show (labelOf line_num ++
      truncLeft (line.take pos)
        (fqoBudgets (line.take pos).length (line.drop (pos + query.length)).length
          (56 - (query.length : Int) - ((labelOf line_num).length : Int))).1 ++
      (line.drop pos).take query.length ++
      truncRight (line.drop (pos + query.length))
        (fqoBudgets (line.take pos).length (line.drop (pos + query.length)).length
          (56 - (query.length : Int) - ((labelOf line_num).length : Int))).2).length ≤ 56
  simp only [List.length_append, hocc]
  omega

/-- Witness for `format_query_occurrence_spec`: the query `"world"` at
position 6 of `"hello world"`, line number 1. -/
theorem format_query_occurrence_spec_witness :
    (format_parts "hello world".data 1 6 "world".data).1.length ≤ 56 ∧
    (∃ l r, (format_parts "hello world".data 1 6 "world".data).1 =
        labelOf 1 ++ l ++ (("hello world".data.drop 6).take "world".data.length) ++ r ∧
      (format_parts "hello world".data 1 6 "world".data).2 =
        List.replicate (labelOf 1 ++ l).length ' ' ++
          List.replicate "world".data.length '-') ∧
    format_query_occurrence "hello world".data 1 6 "world".data =
      (format_parts "hello world".data 1 6 "world".data).1 ++
        '\n' :: ((format_parts "hello world".data 1 6 "world".data).2 ++ ['\n']) :=
  format_query_occurrence_spec "hello world".data 1 6 "world".data
    (by decide) (by decide) (by decide) (by decide)
